import Mathlib

/-!
Verification of the geo-bounded-voronoi core against its specification.

The development shallowly embeds the Rust sources (src/input.rs, src/voronoi.rs).
Two layers are used:

* a validation layer, where IEEE-754 doubles are modelled by the inductive
  type `F64` that records the special values relevant to the validation code
  (NaN, the two infinities, the sign of a zero) and carries the exact rational
  value of a finite double;
* a geometry layer, where the coordinates flowing through the pipeline are
  modelled as exact rationals (every coordinate the pipeline operates on has
  passed the validation layer and is a finite double; rational arithmetic is
  the exact model of the arithmetic the code performs).

The external collaborators (the geo boolean-operation/containment engine and
the voronoice tessellation engine) are not part of the repository; following
the specification they are "specified only at their interface" and are
modelled as parameters (`GeoModel`), constrained only where the specification
states a contract for them.
-/

set_option allowUnsafeReducibility true
attribute [semireducible] Rat.add Rat.sub Rat.mul Rat.inv
set_option maxRecDepth 10000
set_option exponentiation.threshold 2000

deriving instance DecidableEq for Except

namespace GeoBoundedVoronoi

/-! ## Validation layer: a model of IEEE-754 doubles (input.rs, Point2D) -/

/-- Model of an IEEE-754 double.  A finite double is represented by its exact
rational value `val` together with `negZero`, the sign bit of a zero (the sign
bit of a non-zero finite value is determined by the sign of `val`; `negZero`
is only meaningful when `val = 0`). -/
inductive F64 where
  | nan : F64
  | posInf : F64
  | negInf : F64
  | fin (val : ℚ) (negZero : Bool) : F64
deriving DecidableEq

/-- The smallest positive normal double, 2^(-1022).  A finite double is
subnormal exactly when its magnitude is positive and below this bound.  The
executable predicates below state the comparison against this bound in the
equivalent division-free form 1 ≤ 2^1022 * |q| (see `minNormal_le_iff`). -/
def minNormal : ℚ := 1 / ((2 ^ 1022 : ℕ) : ℚ)

/-- Model of f64::is_finite. -/
def F64.isFinite : F64 → Bool
  | .fin _ _ => true
  | _ => false

/-- Model of f64::is_nan. -/
def F64.isNan : F64 → Bool
  | .nan => true
  | _ => false

/-- Model of f64::is_subnormal: positive magnitude strictly below the smallest
positive normal double. -/
def F64.isSubnormal : F64 → Bool
  | .fin q _ => decide (q ≠ 0 ∧ ((2 ^ 1022 : ℕ) : ℚ) * |q| < 1)
  | _ => false

/-- A zero double (of either sign). -/
def F64.isZero : F64 → Bool
  | .fin q _ => decide (q = 0)
  | _ => false

/-- Model of f64::is_normal (magnitudes above f64::MAX do not occur as
doubles, so only the lower bound is modelled). -/
def F64.isNormal : F64 → Bool
  | .fin q _ => decide (q ≠ 0 ∧ 1 ≤ ((2 ^ 1022 : ℕ) : ℚ) * |q|)
  | _ => false

/-- Model of the IEEE-754 equality used by the f64 PartialEq implementation:
NaN is not equal to anything (itself included) and the two zeros are equal. -/
def F64.beq : F64 → F64 → Bool
  | .posInf, .posInf => true
  | .negInf, .negInf => true
  | .fin q _, .fin r _ => decide (q = r)
  | _, _ => false

/-- Model of the f64 PartialOrd implementation: no result when either operand
is NaN, otherwise the usual order with the infinities as extremes and the two
zeros equal. -/
def F64.partCmp : F64 → F64 → Option Ordering
  | .nan, _ => none
  | _, .nan => none
  | .posInf, .posInf => some .eq
  | .posInf, _ => some .gt
  | _, .posInf => some .lt
  | .negInf, .negInf => some .eq
  | .negInf, _ => some .lt
  | _, .negInf => some .gt
  | .fin q _, .fin r _ => some (compare q r)

/-- The content of a double's bit pattern, as observed through f64::to_bits.
Two doubles (NaN apart, a value never stored in a `Point2D`) have the same
bit pattern exactly when they have the same `BitPattern`: the sign bit and
the exact value determine the exponent and mantissa fields, and the sign of a
zero is visible in the bits although invisible to the IEEE equality. -/
inductive BitPattern where
  | nanBits : BitPattern
  | posInfBits : BitPattern
  | negInfBits : BitPattern
  | finBits (sign : Bool) (mag : ℚ) : BitPattern
deriving DecidableEq

/-- Model of f64::to_bits, at the level of the information the bits carry. -/
def F64.toBits : F64 → BitPattern
  | .nan => .nanBits
  | .posInf => .posInfBits
  | .negInf => .negInfBits
  | .fin q s => .finBits (if q < 0 then true else if q = 0 then s else false) |q|

/-- input.rs, Point2D: a 2-dimensional point. -/
structure Point2D where
  x : F64
  y : F64
deriving DecidableEq

/-- input.rs lines 72-78, Point2D::new: fails if one of the coordinates is
not finite or is subnormal. -/
def Point2D.new (x y : F64) : Option Point2D :=
  if !x.isFinite || x.isSubnormal || !y.isFinite || y.isSubnormal then none
  else some ⟨x, y⟩

/-- The derived PartialEq of Point2D: IEEE equality on both coordinates. -/
def Point2D.beq (p q : Point2D) : Bool :=
  p.x.beq q.x && p.y.beq q.y

/-- The derived PartialOrd of Point2D: lexicographic, propagating the result
of the x comparison unless it is Some(Equal). -/
def Point2D.partCmp (p q : Point2D) : Option Ordering :=
  match p.x.partCmp q.x with
  | some .eq => p.y.partCmp q.y
  | c => c

/-- input.rs lines 85-89, the Ord implementation:
self.partial_cmp(other).unwrap().  The unwrap is modelled by keeping the
Option: a `none` result is the panic. -/
def Point2D.cmp (p q : Point2D) : Option Ordering :=
  p.partCmp q

/-- input.rs lines 91-96, the Hash implementation: the hasher is fed
x.to_bits() then y.to_bits(), so two points feed the hasher identical data
(and therefore hash identically) exactly when this pair agrees. -/
def Point2D.hashKey (p : Point2D) : BitPattern × BitPattern :=
  (p.x.toBits, p.y.toBits)

/-! ## Geometry layer

Coordinates are exact rationals (every coordinate the pipeline operates on is
a finite double, and the pipeline's arithmetic is modelled exactly). -/

/-- A planar coordinate (geo::Coord / a [f64; 2] pair / voronoice::Point). -/
structure Coord where
  x : ℚ
  y : ℚ
deriving DecidableEq

/-- geo::LineString: a sequence of coordinates. -/
abbrev LineString := List Coord

/-- geo::LineString::is_closed: the first coordinate equals the last (an
empty line string is closed). -/
def isClosedRing (l : LineString) : Bool :=
  decide (l.head? = l.getLast?)

/-- geo::LineString::close, as performed by geo::Polygon::new: append the
first coordinate when the ring is not already closed. -/
def closeRing (l : LineString) : LineString :=
  if isClosedRing l then l else l ++ l.take 1

/-- geo::Polygon: an exterior ring and a list of interior rings (holes). -/
structure Polygon where
  exterior : LineString
  interiors : List LineString
deriving DecidableEq

/-- geo::Polygon::new: stores the rings, closing each one. -/
def Polygon.new (ext : LineString) (ints : List LineString) : Polygon :=
  ⟨closeRing ext, ints.map closeRing⟩

/-- geo::CoordsIter for Polygon: all coordinates, the exterior ring first,
then every interior ring in order. -/
def Polygon.coordsList (p : Polygon) : List Coord :=
  p.exterior ++ p.interiors.flatten

/-- geo::Rect, the axis-aligned bounding rectangle. -/
structure Rect where
  minX : ℚ
  maxX : ℚ
  minY : ℚ
  maxY : ℚ
deriving DecidableEq

/-- geo::Rect::center, x-coordinate: the midpoint of min and max. -/
def Rect.centerX (r : Rect) : ℚ := (r.minX + r.maxX) / 2

/-- geo::Rect::center, y-coordinate: the midpoint of min and max. -/
def Rect.centerY (r : Rect) : ℚ := (r.minY + r.maxY) / 2

/-- One step of the min/max accumulation of a bounding rectangle. -/
def Rect.expand (r : Rect) (c : Coord) : Rect :=
  ⟨min r.minX c.x, max r.maxX c.x, min r.minY c.y, max r.maxY c.y⟩

/-- geo::BoundingRect for Polygon: the min/max extents of the exterior ring
coordinates; absent when the polygon has no coordinates. -/
def boundingRect (p : Polygon) : Option Rect :=
  match p.exterior with
  | [] => none
  | c :: cs => some (cs.foldl Rect.expand ⟨c.x, c.x, c.y, c.y⟩)

/-- input.rs lines 107-122, Bounds: the bounding rectangle of a polygon or
point set. -/
structure Bounds where
  min_x : ℚ
  max_x : ℚ
  min_y : ℚ
  max_y : ℚ
deriving DecidableEq

/-- input.rs lines 130-141, Bounds::from_polygon: the bounding rectangle of
the polygon, when it exists. -/
def Bounds.fromPolygon (p : Polygon) : Option Bounds :=
  (boundingRect p).map fun r => ⟨r.minX, r.maxX, r.minY, r.maxY⟩

/-- f64::MAX, the largest finite double, (2 - 2^(-52)) * 2^1023. -/
def fMax : ℚ := ((2 ^ 1024 - 2 ^ 971 : ℕ) : ℚ)

/-- f64::MIN, the smallest finite double. -/
def fMin : ℚ := -fMax

/-- The body of the loop of Bounds::from_point_set (input.rs lines 158-171):
replace each running extreme when the point improves on it. -/
def Bounds.updatePoint (b : Bounds) (c : Coord) : Bounds :=
  ⟨if b.min_x > c.x then c.x else b.min_x,
   if b.max_x < c.x then c.x else b.max_x,
   if b.min_y > c.y then c.y else b.min_y,
   if b.max_y < c.y then c.y else b.max_y⟩

/-- input.rs lines 148-179, Bounds::from_point_set: none for an empty set,
otherwise a single scan accumulating min/max per axis starting from
f64::MAX/f64::MIN.  The set is a std HashSet; it is passed here as a list in
the (arbitrary) order the set iteration produces. -/
def Bounds.fromPointSet (pts : List Coord) : Option Bounds :=
  if pts.isEmpty then none
  else some (pts.foldl Bounds.updatePoint ⟨fMax, fMin, fMax, fMin⟩)

/-- input.rs lines 182-184, Bounds::diff_x: the width of the rectangle. -/
def Bounds.diffX (b : Bounds) : ℚ := b.max_x - b.min_x

/-- input.rs lines 187-189, Bounds::diff_y: the height of the rectangle. -/
def Bounds.diffY (b : Bounds) : ℚ := b.max_y - b.min_y

/-- input.rs lines 192-194, Bounds::centre_x = min_x + diff_x / 2. -/
def Bounds.centreX (b : Bounds) : ℚ := b.min_x + b.diffX / 2

/-- input.rs lines 197-199, Bounds::centre_y = min_y + diff_y / 2. -/
def Bounds.centreY (b : Bounds) : ℚ := b.min_y + b.diffY / 2

/-- input.rs lines 12-18, BoundedPointSet: the raw input record, a list of
raw points and a raw boundary ring. -/
structure BoundedPointSet where
  point_set : List Coord
  bound : List Coord
deriving DecidableEq

/-- The error of BoundedPointSet::bounding_polygon (input.rs line 29). -/
def insufficientBoundaryMsg : String :=
  "At least 3 points are needed to specify a bounding polygon."

/-- input.rs lines 22-33, BoundedPointSet::bounding_polygon: an error when
fewer than 3 boundary points are given, otherwise the polygon built (and
closed) from the boundary ring, with no interior rings. -/
def BoundedPointSet.boundingPolygon (b : BoundedPointSet) : Except String Polygon :=
  if b.bound.length < 3 then .error insufficientBoundaryMsg
  else .ok (Polygon.new b.bound [])

/-- The image of the Point2D::new filter on finite doubles: a coordinate is
kept when it is zero or has at least the smallest positive normal magnitude
(compare `F64.isSubnormal`; NaN and the infinities have no rational value and
are handled in the validation layer). -/
def validCoord (q : ℚ) : Bool :=
  decide (q = 0 ∨ 1 ≤ ((2 ^ 1022 : ℕ) : ℚ) * |q|)

/-- input.rs lines 36-41, BoundedPointSet::point_set: the valid points,
deduplicated (the contents of the HashSet the code collects into; the order
of this list is canonical, while every iteration of the HashSet is modelled
as an arbitrary permutation of it, see `IsHashIter`). -/
def BoundedPointSet.pointSet (b : BoundedPointSet) : List Coord :=
  (b.point_set.filter fun c => validCoord c.x && validCoord c.y).dedup

/-- A std HashSet iteration: some enumeration of the stored elements.  The
standard library documents no order; each freshly built set may enumerate in
a different order (the hasher is randomly seeded per instance). -/
def IsHashIter (e : List Coord → List Coord) : Prop :=
  ∀ l, List.Perm (e l) l

/-- input.rs lines 44-49, BoundedPointSet::voronoi_point_set: the
deduplicated points in the order a fresh HashSet iteration yields them,
converted coordinate-for-coordinate into engine points. -/
def BoundedPointSet.voronoiPointSet (b : BoundedPointSet)
    (e : List Coord → List Coord) : List Coord :=
  e b.pointSet

/-! ## The pipeline (voronoi.rs) -/

/-- voronoice::BoundingBox: an axis-aligned box given by centre, width and
height. -/
structure BoundingBox where
  center : Coord
  width : ℚ
  height : ℚ
deriving DecidableEq

/-- voronoi.rs lines 72-76, BoundedVoronoiCell: a site and the vertex list of
its (clipped or still unclipped) cell polygon.  The same record also models
the engine's raw cells as read off in voronoi.rs lines 38-41 (site_position
and iter_vertices, converted by voronoi_point_to_array, which is the
coordinate identity). -/
structure BoundedVoronoiCell where
  site : Coord
  cell : List Coord
deriving DecidableEq

/-- The external collaborators, specified only at their interface:
geo::BooleanOps::intersection (a multi-polygon, i.e. a list of polygonal
regions in the order the engine produces), geo::Contains for a point in a
polygon, and the voronoice tessellation (None when no diagram can be built,
otherwise the raw cells as enumerated by iter_cells). -/
structure GeoModel where
  intersection : Polygon → Polygon → List Polygon
  containsPoint : Polygon → Coord → Bool
  tessellate : List Coord → BoundingBox → Option (List BoundedVoronoiCell)

/-- The documented contract of the tessellation engine: iter_cells yields
exactly one cell per site, in site order, and site_position returns the
site unchanged. -/
def SiteFaithful (M : GeoModel) : Prop :=
  ∀ sites box out, M.tessellate sites box = some out →
    out.map BoundedVoronoiCell.site = sites

/-- The error of center_polygon (voronoi.rs line 60). -/
def invalidPolygonMsg : String :=
  "Invalid polygon. Cannot calculate bounding rectangle."

/-- voronoi.rs lines 56-70, center_polygon: translate every exterior vertex
by the difference between the polygon's bounding-rectangle centre and the
requested centre; an error when the bounding rectangle does not exist. -/
def centerPolygon (p : Polygon) (x y : ℚ) : Except String Polygon :=
  match boundingRect p with
  | none => .error invalidPolygonMsg
  | some rect =>
    let difX := rect.centerX - x
    let difY := rect.centerY - y
    .ok (Polygon.new (p.exterior.map fun c => ⟨c.x - difX, c.y - difY⟩) [])

/-- The error of apply_bound (voronoi.rs line 115). -/
def noContainingMsg : String :=
  "No intersection could be found between the bound and the voronoi cell."

/-- The loop of apply_bound (voronoi.rs lines 96-108): walk the intersection
regions in order, stop (break) at the first one containing the site. -/
def firstContaining (M : GeoModel) (site : Coord) : List Polygon → Option Polygon
  | [] => none
  | r :: rs => if M.containsPoint r site then some r else firstContaining M site rs

/-- voronoi.rs lines 83-117, BoundedVoronoiCell::apply_bound: recentre the
bound on the site, intersect it with the cell polygon, and keep the
coordinates (coords_iter) of the first intersection region containing the
site; an error when no region contains it. -/
def BoundedVoronoiCell.applyBound (M : GeoModel) (c : BoundedVoronoiCell)
    (bound : Polygon) : Except String BoundedVoronoiCell :=
  match centerPolygon bound c.site.x c.site.y with
  | .error e => .error e
  | .ok centeredBound =>
    match firstContaining M c.site
        (M.intersection (Polygon.new c.cell []) centeredBound) with
    | some r => .ok ⟨c.site, r.coordsList⟩
    | none => .error noContainingMsg

/-- The error for an invalid bounding polygon (voronoi.rs line 17). -/
def invalidBoundMsg : String := "The bounding polygon is invalid."

/-- The error for an empty valid point set (voronoi.rs line 19). -/
def insufficientPointsMsg : String :=
  "The point set does not contain enough valid points."

/-- The error for a failed tessellation (voronoi.rs line 34). -/
def tessellationFailedMsg : String :=
  "No Voronoi diagramm could be built for the specified point set."

/-- The enclosing bounding box built in voronoi.rs lines 24-31: centred on
the point-set bounds' centre, sized by the sums of the widths and of the
heights of the two bounding rectangles. -/
def voronoiBoundingBox (pointBounds polyBounds : Bounds) : BoundingBox :=
  ⟨⟨pointBounds.centreX, pointBounds.centreY⟩,
   pointBounds.diffX + polyBounds.diffX,
   pointBounds.diffY + polyBounds.diffY⟩

/-- voronoi.rs lines 16-31: the data handed to the tessellation engine — the
bounding polygon, the sites, and the enclosing bounding box.  The two
enumerations `e1` and `e2` are the iterations of the two HashSets the code
builds (line 18 and line 21 each call point_set() afresh). -/
def tessellationArguments (e1 e2 : List Coord → List Coord)
    (b : BoundedPointSet) : Except String (Polygon × List Coord × BoundingBox) :=
  match b.boundingPolygon with
  | .error e => .error e
  | .ok bound =>
    match Bounds.fromPolygon bound with
    | none => .error invalidBoundMsg
    | some boundBounds =>
      match Bounds.fromPointSet (e1 b.pointSet) with
      | none => .error insufficientPointsMsg
      | some pointBounds =>
        .ok (bound, b.voronoiPointSet e2, voronoiBoundingBox pointBounds boundBounds)

/-- voronoi.rs lines 42-45, the try_fold over the raw cells: clip each cell
and push it, aborting on the first error. -/
def clipCells (M : GeoModel) (bound : Polygon) (acc : List BoundedVoronoiCell) :
    List BoundedVoronoiCell → Except String (List BoundedVoronoiCell)
  | [] => .ok acc
  | c :: cs =>
    match c.applyBound M bound with
    | .ok bc => clipCells M bound (acc ++ [bc]) cs
    | .error e => .error e

/-- voronoi.rs lines 11-47, compute_voronoi: validate the bound, size the
box, tessellate, clip every cell. -/
def computeVoronoi (M : GeoModel) (e1 e2 : List Coord → List Coord)
    (b : BoundedPointSet) : Except String (List BoundedVoronoiCell) :=
  match tessellationArguments e1 e2 b with
  | .error e => .error e
  | .ok (bound, sites, box) =>
    match M.tessellate sites box with
    | none => .error tessellationFailedMsg
    | some diagram => clipCells M bound [] diagram

/-! ## Helper lemmas: the validation layer -/

/-- The division-free comparison used by the executable predicates agrees
with the comparison against the smallest positive normal double. -/
lemma minNormal_le_iff (q : ℚ) :
    1 ≤ ((2 ^ 1022 : ℕ) : ℚ) * |q| ↔ minNormal ≤ |q| := by
  rw [minNormal, div_le_iff₀ (by positivity), mul_comm]

/-- A finite double is not NaN. -/
lemma F64.isNan_eq_false_of_isFinite {x : F64} (h : x.isFinite = true) :
    x.isNan = false := by
  cases x <;> simp_all [F64.isFinite, F64.isNan]

/-- One bad coordinate forces the failing half of the Point2D::new test. -/
lemma F64.bad_test {x : F64}
    (h : x.isNan = true ∨ x = .posInf ∨ x = .negInf ∨ x.isSubnormal = true) :
    (!x.isFinite || x.isSubnormal) = true := by
  rcases h with h | h | h | h
  · cases x <;> simp_all [F64.isNan, F64.isFinite]
  · subst h; simp [F64.isFinite]
  · subst h; simp [F64.isFinite]
  · simp [h]

/-- A zero or normal coordinate passes the Point2D::new test. -/
lemma F64.good_test {x : F64} (h : x.isZero = true ∨ x.isNormal = true) :
    (!x.isFinite || x.isSubnormal) = false := by
  cases x with
  | nan => simp [F64.isZero, F64.isNormal] at h
  | posInf => simp [F64.isZero, F64.isNormal] at h
  | negInf => simp [F64.isZero, F64.isNormal] at h
  | fin q s =>
    simp only [F64.isFinite, F64.isSubnormal, Bool.not_true, Bool.false_or,
      decide_eq_false_iff_not]
    rcases h with h | h
    · simp only [F64.isZero, decide_eq_true_eq] at h
      simp [h]
    · simp only [F64.isNormal, decide_eq_true_eq] at h
      exact fun hc => absurd hc.2 (not_lt.mpr h.2)

/-- Boolean shape of the Point2D::new condition, successful case. -/
lemma Point2D.new_cond_false {x y : F64}
    (hc : (!x.isFinite || x.isSubnormal || !y.isFinite || y.isSubnormal) = false) :
    x.isFinite = true ∧ x.isSubnormal = false ∧
      y.isFinite = true ∧ y.isSubnormal = false := by
  simp only [Bool.or_eq_false_iff, Bool.not_eq_false'] at hc
  obtain ⟨⟨⟨h1, h2⟩, h3⟩, h4⟩ := hc
  exact ⟨h1, h2, h3, h4⟩

/-- Inversion of a successful Point2D::new. -/
lemma Point2D.new_some {x y : F64} {p : Point2D} (h : Point2D.new x y = some p) :
    p = ⟨x, y⟩ ∧ x.isFinite = true ∧ y.isFinite = true := by
  unfold Point2D.new at h
  rcases hc : (!x.isFinite || x.isSubnormal || !y.isFinite || y.isSubnormal) with _ | _
  · rw [hc] at h
    simp only [Bool.false_eq_true, if_false] at h
    obtain ⟨h1, _, h3, _⟩ := Point2D.new_cond_false hc
    exact ⟨(Option.some.inj h).symm, h1, h3⟩
  · rw [hc] at h
    simp at h

/-- The partial comparison of two non-NaN doubles yields a result. -/
lemma F64.partCmp_isSome {x y : F64} (hx : x.isNan = false) (hy : y.isNan = false) :
    (F64.partCmp x y).isSome = true := by
  cases x <;> cases y <;> simp_all [F64.partCmp, F64.isNan]

/-- The geometry-layer coordinate filter agrees with the validation layer:
a rational coordinate is kept exactly when the double carrying it is finite
and not subnormal. -/
lemma validCoord_iff (q : ℚ) (s : Bool) :
    validCoord q = true ↔
      ((F64.fin q s).isFinite = true ∧ (F64.fin q s).isSubnormal = false) := by
  simp only [validCoord, F64.isFinite, F64.isSubnormal, decide_eq_true_eq,
    decide_eq_false_iff_not, true_and]
  rw [not_and_or, not_not, not_lt]

/-! ## Claims C3, C7, C9 -/

/-- C3: the validating factory accepts both zeros, the derived equality of
Point2D identifies +0.0 with -0.0 although their bit patterns (and hence the
data fed to the hasher) differ.  So equality is not the comparison of the
bit-level representations, and two equal points can hash differently: the
points are not safe set keys, contradicting the comment at input.rs lines
81-82 and the Hash/Eq contract the HashSet at input.rs line 36 relies on. -/
theorem c3_zero_hash_mismatch :
    Point2D.new (.fin 0 false) (.fin 0 false) = some ⟨.fin 0 false, .fin 0 false⟩ ∧
    Point2D.new (.fin 0 true) (.fin 0 false) = some ⟨.fin 0 true, .fin 0 false⟩ ∧
    Point2D.beq ⟨.fin 0 false, .fin 0 false⟩ ⟨.fin 0 true, .fin 0 false⟩ = true ∧
    Point2D.hashKey ⟨.fin 0 false, .fin 0 false⟩ ≠
      Point2D.hashKey ⟨.fin 0 true, .fin 0 false⟩ ∧
    (⟨.fin 0 false, .fin 0 false⟩ : Point2D) ≠ ⟨.fin 0 true, .fin 0 false⟩ := by
  decide

/-- C7: Point2D::new returns no value when either coordinate is NaN, an
infinity or subnormal, and returns the point with both coordinates unchanged
when both are zero or ordinary finite normal values. -/
theorem c7_point2d_new (x y : F64) :
    ((x.isNan = true ∨ x = .posInf ∨ x = .negInf ∨ x.isSubnormal = true ∨
      y.isNan = true ∨ y = .posInf ∨ y = .negInf ∨ y.isSubnormal = true) →
      Point2D.new x y = none) ∧
    ((x.isZero = true ∨ x.isNormal = true) → (y.isZero = true ∨ y.isNormal = true) →
      Point2D.new x y = some ⟨x, y⟩) := by
  constructor
  · intro h
    have hxy : (!x.isFinite || x.isSubnormal) = true ∨
        (!y.isFinite || y.isSubnormal) = true := by
      rcases h with h | h | h | h | h | h | h | h
      · exact Or.inl (F64.bad_test (Or.inl h))
      · exact Or.inl (F64.bad_test (Or.inr (Or.inl h)))
      · exact Or.inl (F64.bad_test (Or.inr (Or.inr (Or.inl h))))
      · exact Or.inl (F64.bad_test (Or.inr (Or.inr (Or.inr h))))
      · exact Or.inr (F64.bad_test (Or.inl h))
      · exact Or.inr (F64.bad_test (Or.inr (Or.inl h)))
      · exact Or.inr (F64.bad_test (Or.inr (Or.inr (Or.inl h))))
      · exact Or.inr (F64.bad_test (Or.inr (Or.inr (Or.inr h))))
    unfold Point2D.new
    rw [if_pos]
    simp only [Bool.or_eq_true] at hxy ⊢
    tauto
  · intro hx hy
    have h1 := F64.good_test hx
    have h2 := F64.good_test hy
    simp only [Bool.or_eq_false_iff] at h1 h2
    unfold Point2D.new
    rw [if_neg]
    simp [h1.1, h1.2, h2.1, h2.2]

/-- C7 witness: an ordinary value and a zero are accepted unchanged. -/
theorem c7_point2d_new_witness :
    Point2D.new (.fin 1 false) (.fin 0 false) = some ⟨.fin 1 false, .fin 0 false⟩ :=
  (c7_point2d_new (.fin 1 false) (.fin 0 false)).2 (Or.inr (by decide))
    (Or.inl (by decide))

/-- C9: for points built by the validating factory, the total-order
comparison never panics: the partial comparison the Ord implementation
unwraps always yields a result, because no stored coordinate is NaN. -/
theorem c9_cmp_never_panics (x y x' y' : F64) (p q : Point2D)
    (hp : Point2D.new x y = some p) (hq : Point2D.new x' y' = some q) :
    (Point2D.cmp p q).isSome = true := by
  obtain ⟨hpe, hxf, hyf⟩ := Point2D.new_some hp
  obtain ⟨hqe, hxf', hyf'⟩ := Point2D.new_some hq
  subst hpe hqe
  have h1 := F64.partCmp_isSome (F64.isNan_eq_false_of_isFinite hxf)
    (F64.isNan_eq_false_of_isFinite hxf')
  have h2 := F64.partCmp_isSome (F64.isNan_eq_false_of_isFinite hyf)
    (F64.isNan_eq_false_of_isFinite hyf')
  unfold Point2D.cmp Point2D.partCmp
  rcases ho : F64.partCmp x x' with _ | o
  · rw [ho] at h1; exact absurd h1 (by simp)
  · cases o <;> simp_all

/-- C9 witness: a concrete comparison of two factory-built points. -/
theorem c9_cmp_never_panics_witness :
    (Point2D.cmp ⟨.fin 1 false, .fin 2 false⟩ ⟨.fin 3 false, .fin 4 false⟩).isSome
      = true :=
  c9_cmp_never_panics (.fin 1 false) (.fin 2 false) (.fin 3 false) (.fin 4 false)
    ⟨.fin 1 false, .fin 2 false⟩ ⟨.fin 3 false, .fin 4 false⟩ (by decide) (by decide)

/-! ## Helper lemmas: the geometry layer -/

/-- Closing an already closed ring changes nothing. -/
lemma closeRing_of_closed {l : LineString} (h : isClosedRing l = true) :
    closeRing l = l := by
  simp [closeRing, h]

/-- Mapping a function over a ring preserves closedness. -/
lemma isClosedRing_map (f : Coord → Coord) {l : LineString}
    (h : isClosedRing l = true) : isClosedRing (l.map f) = true := by
  simp only [isClosedRing, decide_eq_true_eq] at h ⊢
  rw [List.head?_map, List.getLast?_map, h]

/-! ## Claim C8 -/

/-- Claim C8 as stated: bounding_polygon fails with the
insufficient-boundary-points error iff the ring has fewer than 3 points, and
any ring of 3 or more points is returned as a polygon with the same vertex
sequence. -/
def claim8 : Prop :=
  ∀ b : BoundedPointSet,
    (b.boundingPolygon = .error insufficientBoundaryMsg ↔ b.bound.length < 3) ∧
    (3 ≤ b.bound.length → b.boundingPolygon = .ok ⟨b.bound, []⟩)

/-- C8 counterexample: for the open 3-point ring (0,0), (1,0), (0,1) the
returned polygon's exterior is the ring closed with the first vertex appended
(geo::Polygon::new closes rings), so the vertex sequence is not the input
sequence. -/
theorem c8_counterexample : ¬ claim8 := by
  intro h
  have h2 := (h ⟨[], [⟨0, 0⟩, ⟨1, 0⟩, ⟨0, 1⟩]⟩).2 (by decide)
  exact absurd h2 (by decide)

/-- C8 (amended): the insufficient-boundary-points error occurs iff fewer
than 3 boundary points are given; a ring of 3 or more points (regardless of
coordinate values) passes validation and is returned as the polygon built
from the input vertex sequence with the ring closed (the first vertex is
appended when first and last differ); when the input ring is already closed
the vertex sequence is preserved exactly. -/
theorem c8_bounding_polygon (b : BoundedPointSet) :
    (b.boundingPolygon = .error insufficientBoundaryMsg ↔ b.bound.length < 3) ∧
    (3 ≤ b.bound.length → b.boundingPolygon = .ok ⟨closeRing b.bound, []⟩) ∧
    (3 ≤ b.bound.length → isClosedRing b.bound = true →
      b.boundingPolygon = .ok ⟨b.bound, []⟩) := by
  refine ⟨?_, fun h => ?_, fun h hc => ?_⟩
  · by_cases hlen : b.bound.length < 3
    · simp [BoundedPointSet.boundingPolygon, hlen]
    · simp [BoundedPointSet.boundingPolygon, hlen, Polygon.new]
  · rw [BoundedPointSet.boundingPolygon, if_neg (by omega)]
    rfl
  · rw [BoundedPointSet.boundingPolygon, if_neg (by omega)]
    rw [Polygon.new, closeRing_of_closed hc]
    rfl

/-- C8 witness: a closed square ring of 5 points is accepted and returned
with its vertex sequence intact. -/
theorem c8_bounding_polygon_witness :
    3 ≤ ([⟨0, 0⟩, ⟨4, 0⟩, ⟨4, 4⟩, ⟨0, 4⟩, ⟨0, 0⟩] : List Coord).length ∧
    (BoundedPointSet.mk [] [⟨0, 0⟩, ⟨4, 0⟩, ⟨4, 4⟩, ⟨0, 4⟩, ⟨0, 0⟩]).boundingPolygon
      = .ok ⟨[⟨0, 0⟩, ⟨4, 0⟩, ⟨4, 4⟩, ⟨0, 4⟩, ⟨0, 0⟩], []⟩ :=
  ⟨by decide,
   (c8_bounding_polygon ⟨[], [⟨0, 0⟩, ⟨4, 0⟩, ⟨4, 4⟩, ⟨0, 4⟩, ⟨0, 0⟩]⟩).2.2
     (by decide) (by decide)⟩

/-! ## Claim C6 -/

/-- C6: recentring translates every exterior vertex of the bounding polygon
by (x - centre.x, y - centre.y), where centre is the centre of the polygon's
bounding rectangle, and fails exactly when no bounding rectangle exists.
The polygon's exterior ring is closed (every polygon the program builds goes
through geo::Polygon::new, which closes it), which the translation part
assumes so that re-closing the translated ring changes nothing. -/
theorem c6_center_polygon (p : Polygon) (x y : ℚ) :
    (centerPolygon p x y = .error invalidPolygonMsg ↔ boundingRect p = none) ∧
    (∀ rect, boundingRect p = some rect → isClosedRing p.exterior = true →
      centerPolygon p x y =
        .ok ⟨p.exterior.map
          (fun c => ⟨c.x + (x - rect.centerX), c.y + (y - rect.centerY)⟩), []⟩) := by
  constructor
  · rcases hb : boundingRect p with _ | rect
    · simp [centerPolygon, hb]
    · simp [centerPolygon, hb]
  · intro rect hrect hclosed
    simp only [centerPolygon, hrect, Polygon.new, List.map_nil]
    rw [closeRing_of_closed (isClosedRing_map _ hclosed)]
    have hfun : (fun c : Coord =>
        (⟨c.x - (rect.centerX - x), c.y - (rect.centerY - y)⟩ : Coord)) =
        fun c : Coord => ⟨c.x + (x - rect.centerX), c.y + (y - rect.centerY)⟩ := by
      funext c
      congr 1 <;> ring
    rw [hfun]

/-- C6 witness: recentring a closed triangle on the site (5, 5). -/
theorem c6_center_polygon_witness :
    boundingRect ⟨[⟨0, 0⟩, ⟨2, 0⟩, ⟨0, 2⟩, ⟨0, 0⟩], []⟩ = some ⟨0, 2, 0, 2⟩ ∧
    centerPolygon ⟨[⟨0, 0⟩, ⟨2, 0⟩, ⟨0, 2⟩, ⟨0, 0⟩], []⟩ 5 5 =
      .ok ⟨([⟨0, 0⟩, ⟨2, 0⟩, ⟨0, 2⟩, ⟨0, 0⟩] : List Coord).map
        (fun c => ⟨c.x + (5 - Rect.centerX ⟨0, 2, 0, 2⟩),
                   c.y + (5 - Rect.centerY ⟨0, 2, 0, 2⟩)⟩), []⟩ :=
  ⟨by decide,
   (c6_center_polygon ⟨[⟨0, 0⟩, ⟨2, 0⟩, ⟨0, 2⟩, ⟨0, 0⟩], []⟩ 5 5).2
     ⟨0, 2, 0, 2⟩ (by decide) (by decide)⟩

/-! ## Helper lemmas: apply_bound -/

/-- The break-at-first-match loop is List.find? on the region list. -/
lemma firstContaining_eq_find (M : GeoModel) (s : Coord) (l : List Polygon) :
    firstContaining M s l = l.find? (fun r => M.containsPoint r s) := by
  induction l with
  | nil => rfl
  | cons r rs ih =>
    by_cases hc : M.containsPoint r s <;>
      simp [firstContaining, List.find?_cons, hc, ih]

/-- A successful clip keeps the site of the input cell. -/
lemma applyBound_site {M : GeoModel} {c out : BoundedVoronoiCell} {bound : Polygon}
    (h : c.applyBound M bound = .ok out) : out.site = c.site := by
  unfold BoundedVoronoiCell.applyBound at h
  rcases hcp : centerPolygon bound c.site.x c.site.y with e | cb
  · rw [hcp] at h
    exact absurd h (by simp)
  · rw [hcp] at h
    dsimp only at h
    rcases hf : firstContaining M c.site
        (M.intersection (Polygon.new c.cell []) cb) with _ | r
    · rw [hf] at h
      exact absurd h (by simp)
    · rw [hf] at h
      injection h with h2
      rw [← h2]

/-! ## Claim C4 -/

/-- C4: once the bound has been recentred, apply_bound walks the
intersection regions in the order the boolean-operation engine produced,
returns the cell built from the first region containing the site, and fails
with the no-containing-intersection error exactly when no region contains
the site. -/
theorem c4_first_containing_clip (M : GeoModel) (c : BoundedVoronoiCell)
    (bound cb : Polygon) (hc : centerPolygon bound c.site.x c.site.y = .ok cb) :
    (c.applyBound M bound =
      ((M.intersection (Polygon.new c.cell []) cb).find?
          (fun r => M.containsPoint r c.site)).elim
        (Except.error noContainingMsg)
        (fun r => Except.ok ⟨c.site, r.coordsList⟩)) ∧
    (c.applyBound M bound = .error noContainingMsg ↔
      ∀ r ∈ M.intersection (Polygon.new c.cell []) cb,
        M.containsPoint r c.site = false) := by
  have happ : c.applyBound M bound =
      ((M.intersection (Polygon.new c.cell []) cb).find?
          (fun r => M.containsPoint r c.site)).elim
        (Except.error noContainingMsg)
        (fun r => Except.ok ⟨c.site, r.coordsList⟩) := by
    unfold BoundedVoronoiCell.applyBound
    rw [hc]
    dsimp only
    rw [firstContaining_eq_find]
    rcases hf : (M.intersection (Polygon.new c.cell []) cb).find?
        (fun r => M.containsPoint r c.site) with _ | r <;> simp
  refine ⟨happ, ?_⟩
  rw [happ]
  rcases hf : (M.intersection (Polygon.new c.cell []) cb).find?
      (fun r => M.containsPoint r c.site) with _ | r
  · simp only [Option.elim_none, true_iff]
    intro r hr
    have := List.find?_eq_none.mp hf r hr
    simpa using this
  · simp only [Option.elim_some]
    constructor
    · intro hcon
      exact absurd hcon (by simp)
    · intro hall
      have hmem := List.mem_of_find?_eq_some hf
      have htrue := List.find?_some hf
      rw [hall r hmem] at htrue
      exact absurd htrue (by simp)

/-- C4 witness: with one intersection region containing the site, the clip
returns the cell built from that region. -/
theorem c4_first_containing_clip_witness :
    (centerPolygon ⟨[⟨0, 0⟩, ⟨4, 0⟩, ⟨4, 4⟩, ⟨0, 4⟩, ⟨0, 0⟩], []⟩ 1 1 =
      .ok ⟨[⟨-1, -1⟩, ⟨3, -1⟩, ⟨3, 3⟩, ⟨-1, 3⟩, ⟨-1, -1⟩], []⟩) ∧
    (BoundedVoronoiCell.applyBound
        ⟨fun cp _ => [cp], fun _ _ => true, fun _ _ => none⟩
        ⟨⟨1, 1⟩, [⟨1, 1⟩]⟩ ⟨[⟨0, 0⟩, ⟨4, 0⟩, ⟨4, 4⟩, ⟨0, 4⟩, ⟨0, 0⟩], []⟩ =
      ((([(⟨[⟨1, 1⟩], []⟩ : Polygon)]).find?
          (fun r => (fun (_ : Polygon) (_ : Coord) => true) r ⟨1, 1⟩)).elim
        (Except.error noContainingMsg)
        (fun r => Except.ok ⟨⟨1, 1⟩, r.coordsList⟩))) :=
  ⟨by decide,
   (c4_first_containing_clip
     ⟨fun cp _ => [cp], fun _ _ => true, fun _ _ => none⟩
     ⟨⟨1, 1⟩, [⟨1, 1⟩]⟩ ⟨[⟨0, 0⟩, ⟨4, 0⟩, ⟨4, 4⟩, ⟨0, 4⟩, ⟨0, 0⟩], []⟩
     ⟨[⟨-1, -1⟩, ⟨3, -1⟩, ⟨3, 3⟩, ⟨-1, 3⟩, ⟨-1, -1⟩], []⟩ (by decide)).1⟩

/-! ## Claim C5 -/

/-- Claim C5 as stated: the vertices of a successfully clipped cell are
exactly the exterior ring of the chosen intersection region, so no interior
ring coordinate ever appears in the output. -/
def claim5 : Prop :=
  ∀ (M : GeoModel) (c : BoundedVoronoiCell) (bound cb r : Polygon)
    (out : BoundedVoronoiCell),
    centerPolygon bound c.site.x c.site.y = .ok cb →
    (M.intersection (Polygon.new c.cell []) cb).find?
        (fun p => M.containsPoint p c.site) = some r →
    c.applyBound M bound = .ok out →
    out.cell = r.exterior

/-- C5 counterexample: apply_bound reads the chosen region through
geo::CoordsIter, which chains the exterior ring with every interior ring,
so when the boolean-operation engine returns a region with a hole the
hole's coordinates appear in the output cell. -/
theorem c5_counterexample : ¬ claim5 := by
  intro h
  have h2 := h
    ⟨fun _ _ => [⟨[⟨0, 0⟩, ⟨10, 0⟩, ⟨10, 10⟩, ⟨0, 10⟩, ⟨0, 0⟩],
                 [[⟨4, 4⟩, ⟨6, 4⟩, ⟨6, 6⟩, ⟨4, 6⟩, ⟨4, 4⟩]]⟩],
     fun _ _ => true, fun _ _ => none⟩
    ⟨⟨1, 1⟩, [⟨1, 1⟩]⟩ ⟨[⟨0, 0⟩, ⟨4, 0⟩, ⟨4, 4⟩, ⟨0, 4⟩, ⟨0, 0⟩], []⟩
    ⟨[⟨-1, -1⟩, ⟨3, -1⟩, ⟨3, 3⟩, ⟨-1, 3⟩, ⟨-1, -1⟩], []⟩
    ⟨[⟨0, 0⟩, ⟨10, 0⟩, ⟨10, 10⟩, ⟨0, 10⟩, ⟨0, 0⟩],
     [[⟨4, 4⟩, ⟨6, 4⟩, ⟨6, 6⟩, ⟨4, 6⟩, ⟨4, 4⟩]]⟩
    ⟨⟨1, 1⟩, [⟨0, 0⟩, ⟨10, 0⟩, ⟨10, 10⟩, ⟨0, 10⟩, ⟨0, 0⟩,
              ⟨4, 4⟩, ⟨6, 4⟩, ⟨6, 6⟩, ⟨4, 6⟩, ⟨4, 4⟩]⟩
    (by decide) (by decide) (by decide)
  exact absurd h2 (by decide)

/-- C5 (amended): the output cell's vertex list is the full coordinate list
of the chosen region — the exterior ring followed by every interior ring; it
is exactly the exterior ring only when the region has no interior rings. -/
theorem c5_output_coords (M : GeoModel) (c : BoundedVoronoiCell)
    (bound cb r : Polygon)
    (hc : centerPolygon bound c.site.x c.site.y = .ok cb)
    (hr : (M.intersection (Polygon.new c.cell []) cb).find?
        (fun p => M.containsPoint p c.site) = some r) :
    c.applyBound M bound = .ok ⟨c.site, r.exterior ++ r.interiors.flatten⟩ ∧
    (r.interiors = [] → c.applyBound M bound = .ok ⟨c.site, r.exterior⟩) := by
  have h1 : c.applyBound M bound = .ok ⟨c.site, r.exterior ++ r.interiors.flatten⟩ := by
    unfold BoundedVoronoiCell.applyBound
    rw [hc]
    dsimp only
    rw [firstContaining_eq_find, hr]
    rfl
  refine ⟨h1, fun hint => ?_⟩
  rw [h1, hint]
  simp

/-- C5 witness: with a hole-free chosen region the output is its exterior
ring. -/
theorem c5_output_coords_witness :
    BoundedVoronoiCell.applyBound
        ⟨fun cp _ => [cp], fun _ _ => true, fun _ _ => none⟩
        ⟨⟨1, 1⟩, [⟨1, 1⟩]⟩ ⟨[⟨0, 0⟩, ⟨4, 0⟩, ⟨4, 4⟩, ⟨0, 4⟩, ⟨0, 0⟩], []⟩ =
      .ok ⟨⟨1, 1⟩, [⟨1, 1⟩]⟩ :=
  (c5_output_coords
    ⟨fun cp _ => [cp], fun _ _ => true, fun _ _ => none⟩
    ⟨⟨1, 1⟩, [⟨1, 1⟩]⟩ ⟨[⟨0, 0⟩, ⟨4, 0⟩, ⟨4, 4⟩, ⟨0, 4⟩, ⟨0, 0⟩], []⟩
    ⟨[⟨-1, -1⟩, ⟨3, -1⟩, ⟨3, 3⟩, ⟨-1, 3⟩, ⟨-1, -1⟩], []⟩
    ⟨[⟨1, 1⟩], []⟩ (by decide) (by decide)).2 (by decide)

/-! ## Claim C10 -/

/-- C10: whenever apply_bound succeeds, the site of the returned cell is the
site of the input cell, coordinate for coordinate; clipping only changes the
cell polygon. -/
theorem c10_site_preserved (M : GeoModel) (c out : BoundedVoronoiCell)
    (bound : Polygon) (h : c.applyBound M bound = .ok out) : out.site = c.site :=
  applyBound_site h

/-- C10 witness: a concrete successful clip keeps the site (1, 1). -/
theorem c10_site_preserved_witness :
    (BoundedVoronoiCell.applyBound
        ⟨fun cp _ => [cp], fun _ _ => true, fun _ _ => none⟩
        ⟨⟨1, 1⟩, [⟨1, 1⟩]⟩ ⟨[⟨0, 0⟩, ⟨4, 0⟩, ⟨4, 4⟩, ⟨0, 4⟩, ⟨0, 0⟩], []⟩ =
      .ok ⟨⟨1, 1⟩, [⟨1, 1⟩]⟩) ∧
    (⟨⟨1, 1⟩, [⟨1, 1⟩]⟩ : BoundedVoronoiCell).site =
      (⟨⟨1, 1⟩, [⟨1, 1⟩]⟩ : BoundedVoronoiCell).site :=
  ⟨by decide,
   c10_site_preserved
     ⟨fun cp _ => [cp], fun _ _ => true, fun _ _ => none⟩
     ⟨⟨1, 1⟩, [⟨1, 1⟩]⟩ ⟨⟨1, 1⟩, [⟨1, 1⟩]⟩
     ⟨[⟨0, 0⟩, ⟨4, 0⟩, ⟨4, 4⟩, ⟨0, 4⟩, ⟨0, 0⟩], []⟩ (by decide)⟩

/-! ## Helper lemmas: the point-set bounds are independent of the HashSet
iteration order -/

/-- The running-minimum update of the scan is the lattice minimum. -/
lemma if_gt_eq_min (a x : ℚ) : (if a > x then x else a) = min a x := by
  rcases le_or_lt a x with h | h
  · rw [if_neg (not_lt.mpr h), min_eq_left h]
  · rw [if_pos h, min_eq_right h.le]

/-- The running-maximum update of the scan is the lattice maximum. -/
lemma if_lt_eq_max (a x : ℚ) : (if a < x then x else a) = max a x := by
  rcases le_or_lt x a with h | h
  · rw [if_neg (not_lt.mpr h), max_eq_left h]
  · rw [if_pos h, max_eq_right h.le]

/-- The scan step in min/max form. -/
lemma Bounds.updatePoint_min_max (b : Bounds) (c : Coord) :
    b.updatePoint c =
      ⟨min b.min_x c.x, max b.max_x c.x, min b.min_y c.y, max b.max_y c.y⟩ := by
  unfold Bounds.updatePoint
  rw [if_gt_eq_min, if_lt_eq_max, if_gt_eq_min, if_lt_eq_max]

/-- Scanning two points commutes, so the scan result is independent of the
enumeration order of the set. -/
lemma Bounds.updatePoint_comm (b : Bounds) (c d : Coord) :
    (b.updatePoint c).updatePoint d = (b.updatePoint d).updatePoint c := by
  simp only [Bounds.updatePoint_min_max]
  rw [inf_right_comm, sup_right_comm, inf_right_comm b.min_y, sup_right_comm b.max_y]

/-- Bounds::from_point_set gives the same result for any two enumerations of
the same point set. -/
lemma Bounds.fromPointSet_perm {l₁ l₂ : List Coord} (h : List.Perm l₁ l₂) :
    Bounds.fromPointSet l₁ = Bounds.fromPointSet l₂ := by
  unfold Bounds.fromPointSet
  have hempty : l₁.isEmpty = l₂.isEmpty := by
    rcases l₁ with _ | ⟨a, l⟩
    · rw [List.nil_perm] at h
      rw [h]
    · rcases l₂ with _ | ⟨b, m⟩
      · rw [List.perm_nil] at h
        exact absurd h (by simp)
      · rfl
  rw [hempty]
  rcases he : l₂.isEmpty with _ | _
  · simp only [Bool.false_eq_true, if_false]
    congr 1
    exact h.foldl_eq' (fun x _ y _ z => Bounds.updatePoint_comm z x y) _
  · simp

/-! ## Claim C2 -/

/-- The enclosing region as the specification words it: an axis-aligned box
centred at the centre of the point-set bounding rectangle (the midpoint of
its extremes on each axis), of width the point-set rectangle width plus the
bound-polygon rectangle width, and height the corresponding sum of
heights. -/
def specEnclosingBox (pointBounds polyBounds : Bounds) : BoundingBox :=
  ⟨⟨(pointBounds.min_x + pointBounds.max_x) / 2,
    (pointBounds.min_y + pointBounds.max_y) / 2⟩,
   (pointBounds.max_x - pointBounds.min_x) + (polyBounds.max_x - polyBounds.min_x),
   (pointBounds.max_y - pointBounds.min_y) + (polyBounds.max_y - polyBounds.min_y)⟩

/-- C2: whenever the bounding polygon and the deduplicated point set both
have bounding rectangles, the box handed to the tessellation engine is the
specification's enclosing box — whatever order the HashSet iteration
produced the points in. -/
theorem c2_enclosing_box (e1 e2 : List Coord → List Coord) (b : BoundedPointSet)
    (bound : Polygon) (polyB pointB : Bounds)
    (h1 : IsHashIter e1)
    (hb : b.boundingPolygon = .ok bound)
    (hpb : Bounds.fromPolygon bound = some polyB)
    (hsb : Bounds.fromPointSet b.pointSet = some pointB) :
    tessellationArguments e1 e2 b =
      .ok (bound, b.voronoiPointSet e2, specEnclosingBox pointB polyB) := by
  have hsb1 : Bounds.fromPointSet (e1 b.pointSet) = some pointB := by
    rw [Bounds.fromPointSet_perm (h1 b.pointSet), hsb]
  unfold tessellationArguments
  rw [hb]
  dsimp only
  rw [hpb]
  dsimp only
  rw [hsb1]
  dsimp only
  have hbox : voronoiBoundingBox pointB polyB = specEnclosingBox pointB polyB := by
    unfold voronoiBoundingBox specEnclosingBox Bounds.centreX Bounds.centreY
      Bounds.diffX Bounds.diffY
    congr 1
    · congr 1 <;> ring
  rw [hbox]

/-- C2 witness: two points and a square bound, identity enumerations. -/
theorem c2_enclosing_box_witness :
    tessellationArguments (fun l => l) (fun l => l)
        ⟨[⟨0, 0⟩, ⟨2, 2⟩], [⟨0, 0⟩, ⟨4, 0⟩, ⟨4, 4⟩, ⟨0, 4⟩, ⟨0, 0⟩]⟩ =
      .ok (⟨[⟨0, 0⟩, ⟨4, 0⟩, ⟨4, 4⟩, ⟨0, 4⟩, ⟨0, 0⟩], []⟩,
           [⟨0, 0⟩, ⟨2, 2⟩],
           specEnclosingBox ⟨0, 2, 0, 2⟩ ⟨0, 4, 0, 4⟩) :=
  c2_enclosing_box (fun l => l) (fun l => l)
    ⟨[⟨0, 0⟩, ⟨2, 2⟩], [⟨0, 0⟩, ⟨4, 0⟩, ⟨4, 4⟩, ⟨0, 4⟩, ⟨0, 0⟩]⟩
    ⟨[⟨0, 0⟩, ⟨4, 0⟩, ⟨4, 4⟩, ⟨0, 4⟩, ⟨0, 0⟩], []⟩
    ⟨0, 4, 0, 4⟩ ⟨0, 2, 0, 2⟩
    (fun l => List.Perm.refl l) (by decide) (by decide) (by decide)

/-! ## Helper lemmas: the pipeline -/

/-- The sites of the clipped cells are the sites of the raw cells, in
order. -/
lemma clipCells_sites (M : GeoModel) (bound : Polygon) :
    ∀ (cs : List BoundedVoronoiCell) (acc res : List BoundedVoronoiCell),
      clipCells M bound acc cs = .ok res →
      res.map BoundedVoronoiCell.site =
        acc.map BoundedVoronoiCell.site ++ cs.map BoundedVoronoiCell.site := by
  intro cs
  induction cs with
  | nil =>
    intro acc res h
    unfold clipCells at h
    injection h with h'
    rw [← h']
    simp
  | cons c cs ih =>
    intro acc res h
    unfold clipCells at h
    rcases hab : c.applyBound M bound with e | bc
    · rw [hab] at h
      exact absurd h (by simp)
    · rw [hab] at h
      rw [ih (acc ++ [bc]) res h]
      simp [applyBound_site hab]

/-- The arguments handed to the engine do not depend on which enumeration
the first HashSet produced. -/
lemma tessellationArguments_hashIter (e1 e1' e2 : List Coord → List Coord)
    (b : BoundedPointSet) (h1 : IsHashIter e1) (h1' : IsHashIter e1') :
    tessellationArguments e1 e2 b = tessellationArguments e1' e2 b := by
  unfold tessellationArguments
  rw [Bounds.fromPointSet_perm ((h1 b.pointSet).trans (h1' b.pointSet).symm)]

/-- Inversion of a successful pipeline run. -/
lemma computeVoronoi_ok {M : GeoModel} {e1 e2 : List Coord → List Coord}
    {b : BoundedPointSet} {cells : List BoundedVoronoiCell}
    (h : computeVoronoi M e1 e2 b = .ok cells) :
    ∃ bound sites box diagram,
      tessellationArguments e1 e2 b = .ok (bound, sites, box) ∧
      M.tessellate sites box = some diagram ∧
      clipCells M bound [] diagram = .ok cells := by
  unfold computeVoronoi at h
  rcases ht : tessellationArguments e1 e2 b with e | ⟨bound, sites, box⟩
  · rw [ht] at h
    exact absurd h (by simp)
  · rw [ht] at h
    dsimp only at h
    rcases hd : M.tessellate sites box with _ | diagram
    · rw [hd] at h
      exact absurd h (by simp)
    · rw [hd] at h
      exact ⟨bound, sites, box, diagram, rfl, hd, h⟩

/-- The sites a successful run handed to the engine are the second HashSet
enumeration of the deduplicated point set. -/
lemma tessellationArguments_ok_sites {e1 e2 : List Coord → List Coord}
    {b : BoundedPointSet} {bound : Polygon} {sites : List Coord}
    {box : BoundingBox}
    (h : tessellationArguments e1 e2 b = .ok (bound, sites, box)) :
    sites = e2 b.pointSet := by
  unfold tessellationArguments at h
  rcases hb : b.boundingPolygon with e | bd
  · rw [hb] at h
    exact absurd h (by simp)
  · rw [hb] at h
    dsimp only at h
    rcases hp : Bounds.fromPolygon bd with _ | pb
    · rw [hp] at h
      exact absurd h (by simp)
    · rw [hp] at h
      dsimp only at h
      rcases hs : Bounds.fromPointSet (e1 b.pointSet) with _ | sb
      · rw [hs] at h
        exact absurd h (by simp)
      · rw [hs] at h
        dsimp only at h
        injection h with h'
        have h2 := congrArg (fun t => t.2.1) h'
        exact h2.symm

/-! ## Claim C1 -/

/-- Claim C1 as stated: for every input value, two runs of the pipeline
yield identical output sequences — for every engine honouring the site
contract and regardless of which (arbitrary) enumerations the four HashSet
iterations produce. -/
def claim1 : Prop :=
  ∀ (M : GeoModel), SiteFaithful M →
    ∀ (e1 e2 e1' e2' : List Coord → List Coord),
      IsHashIter e1 → IsHashIter e2 → IsHashIter e1' → IsHashIter e2' →
      ∀ b : BoundedPointSet,
        computeVoronoi M e1 e2 b = computeVoronoi M e1' e2' b

/-- A concrete engine model for whole-pipeline runs: one cell per site, in
site order, with a degenerate cell polygon at the site. -/
def demoModel : GeoModel :=
  ⟨fun cp _ => [cp], fun _ _ => true,
   fun sites _ => some (sites.map fun s => ⟨s, [s]⟩)⟩

/-- The concrete engine model honours the documented site contract. -/
lemma demoModel_siteFaithful : SiteFaithful demoModel := by
  intro sites box out h
  simp only [demoModel] at h
  injection h with h'
  rw [← h']
  rw [List.map_map]
  exact List.map_id sites

/-- C1 counterexample: the two HashSets built by a run iterate in an
arbitrary, instance-specific order (std HashSet seeds its hasher per
instance), and the output cells follow the site order, so two runs on the
same two-point input can emit the two cells in opposite orders. -/
theorem c1_counterexample : ¬ claim1 := by
  intro h
  have h2 := h demoModel demoModel_siteFaithful
    (fun l => l) (fun l => l) List.reverse List.reverse
    (fun l => List.Perm.refl l) (fun l => List.Perm.refl l)
    (fun l => List.reverse_perm l) (fun l => List.reverse_perm l)
    ⟨[⟨0, 0⟩, ⟨2, 2⟩], [⟨0, 0⟩, ⟨4, 0⟩, ⟨4, 4⟩, ⟨0, 4⟩, ⟨0, 0⟩]⟩
  exact absurd h2 (by decide)

/-- C1 (amended): a run is a function of the input and the hidden HashSet
enumeration orders — two runs that enumerate the deduplicated point set in
the same order yield identical output, and any two successful runs yield
the same cells' sites up to order (the output sequence order follows the
hidden enumeration and may differ between runs). -/
theorem c1_runs_agree (M : GeoModel) (e1 e2 e1' e2' : List Coord → List Coord)
    (b : BoundedPointSet) (hM : SiteFaithful M)
    (h1 : IsHashIter e1) (h1' : IsHashIter e1')
    (h2 : IsHashIter e2) (h2' : IsHashIter e2') :
    (e2 b.pointSet = e2' b.pointSet →
      computeVoronoi M e1 e2 b = computeVoronoi M e1' e2' b) ∧
    (∀ cells cells',
      computeVoronoi M e1 e2 b = .ok cells →
      computeVoronoi M e1' e2' b = .ok cells' →
      List.Perm (cells.map BoundedVoronoiCell.site)
        (cells'.map BoundedVoronoiCell.site)) := by
  constructor
  · intro hee
    have harg : tessellationArguments e1 e2 b = tessellationArguments e1' e2' b := by
      rw [tessellationArguments_hashIter e1 e1' e2 b h1 h1']
      unfold tessellationArguments BoundedPointSet.voronoiPointSet
      rw [hee]
    unfold computeVoronoi
    rw [harg]
  · intro cells cells' hc hc'
    obtain ⟨bound, sites, box, d, ht, hd, hcl⟩ := computeVoronoi_ok hc
    obtain ⟨bound', sites', box', d', ht', hd', hcl'⟩ := computeVoronoi_ok hc'
    have hs : cells.map BoundedVoronoiCell.site = e2 b.pointSet := by
      rw [clipCells_sites M bound d [] cells hcl]
      rw [hM sites box d hd, tessellationArguments_ok_sites ht]
      simp
    have hs' : cells'.map BoundedVoronoiCell.site = e2' b.pointSet := by
      rw [clipCells_sites M bound' d' [] cells' hcl']
      rw [hM sites' box' d' hd', tessellationArguments_ok_sites ht']
      simp
    rw [hs, hs']
    exact (h2 b.pointSet).trans (h2' b.pointSet).symm

/-- C1 witness: two concrete runs over enumerations in opposite orders
produce the same sites up to order. -/
theorem c1_runs_agree_witness :
    List.Perm
      (([⟨⟨0, 0⟩, [⟨0, 0⟩]⟩, ⟨⟨2, 2⟩, [⟨2, 2⟩]⟩] : List BoundedVoronoiCell).map
        BoundedVoronoiCell.site)
      (([⟨⟨2, 2⟩, [⟨2, 2⟩]⟩, ⟨⟨0, 0⟩, [⟨0, 0⟩]⟩] : List BoundedVoronoiCell).map
        BoundedVoronoiCell.site) :=
  (c1_runs_agree demoModel (fun l => l) (fun l => l) List.reverse List.reverse
      ⟨[⟨0, 0⟩, ⟨2, 2⟩], [⟨0, 0⟩, ⟨4, 0⟩, ⟨4, 4⟩, ⟨0, 4⟩, ⟨0, 0⟩]⟩
      demoModel_siteFaithful
      (fun l => List.Perm.refl l) (fun l => List.reverse_perm l)
      (fun l => List.Perm.refl l) (fun l => List.reverse_perm l)).2
    [⟨⟨0, 0⟩, [⟨0, 0⟩]⟩, ⟨⟨2, 2⟩, [⟨2, 2⟩]⟩]
    [⟨⟨2, 2⟩, [⟨2, 2⟩]⟩, ⟨⟨0, 0⟩, [⟨0, 0⟩]⟩]
    (by decide) (by decide)

end GeoBoundedVoronoi
